import Mathlib

set_option synthInstance.maxSize 400

/-!
Verification of the Blackjack server/client repository
(`protocol.py`, `Server.py`, `Client.py`, `main.py`).

The Python sources are shallowly embedded below: bytes are `Nat`s,
cards are `Nat × Nat` pairs `(rank, suit)`, the blocking socket reads are
modelled by an explicit stream of receive events, and `random.shuffle`
is modelled by quantifying over an arbitrary permutation of the base deck.
-/

namespace Blackjack

/-- A byte on the wire, modelled as a natural number. -/
abbrev Byte := Nat

/-- A card `(rank, suit)` with rank 1..13 and suit 0..3, as in the source. -/
abbrev Card := Nat × Nat

/-- `protocol.MAGIC_COOKIE = 0xabcddcba`. -/
def MAGIC_COOKIE : Nat := 0xabcddcba

/-- `protocol.OFFER_TYPE = 0x2`. -/
def OFFER_TYPE : Nat := 0x2

/-- `protocol.REQUEST_TYPE = 0x3`. -/
def REQUEST_TYPE : Nat := 0x3

/-- `protocol.PAYLOAD_TYPE = 0x4`. -/
def PAYLOAD_TYPE : Nat := 0x4

/-- One result of a blocking `sock.recv(k)` call:
either a chunk of data (the OS never delivers more than `k` bytes, which the
model enforces by truncation in `recvOnce`), a clean close (`recv` returns
`b''`), or a socket error / timeout (`socket.error` is raised). -/
inductive RecvEvent where
  | chunk (bytes : List Byte)
  | closed
  | err
deriving DecidableEq

/-- Semantics of a single `sock.recv(requested)` call against one event:
`none` models a raised `socket.error`, `some bs` the returned bytes
(at most `requested` of them), `some []` the end-of-stream marker `b''`. -/
def recvOnce (requested : Nat) : RecvEvent → Option (List Byte)
  | .chunk bs => some (bs.take requested)
  | .closed => some []
  | .err => none

/-- The loop body of `protocol.recv_all`: while fewer than `n` bytes are
accumulated, call `recv(n - len(data))`; a raised `socket.error` or an empty
chunk makes the whole call return `None`; exhausting the event stream models
a peer that never sends the rest (the idle timeout then raises, which
`recv_all` also turns into `None`). -/
def recvAllGo : List RecvEvent → Nat → List Byte → Option (List Byte)
  | evs, n, acc =>
    if n ≤ acc.length then some acc
    else
      match evs with
      | [] => none
      | e :: rest =>
        match recvOnce (n - acc.length) e with
        | none => none
        | some [] => none
        | some bs => recvAllGo rest n (acc ++ bs)

/-- `protocol.recv_all(sock, n)` with the socket modelled as its stream of
receive events. -/
def recv_all (events : List RecvEvent) (n : Nat) : Option (List Byte) :=
  recvAllGo events n []

/-- `BlackjackServer.calculate_value`: 11 per Ace (rank 1), 10 per rank ≥ 10,
otherwise the rank itself.  The source performs no Ace demotion. -/
def calculate_value (hand : List Card) : Nat :=
  hand.foldl
    (fun val c =>
      if c.1 = 1 then val + 11
      else if 10 ≤ c.1 then val + 10
      else val + c.1) 0

/-- The list comprehension in `BlackjackServer.create_deck`:
`[(rank, suit) for rank in range(1, 14) for suit in range(4)]`. -/
def base_deck : List Card :=
  (List.range' 1 13).flatMap fun r => (List.range 4).map fun s => (r, s)

/-- `BlackjackServer.create_deck`: builds the 52-card list and shuffles it.
`random.shuffle` is modelled by an arbitrary reordering function; theorems
assume it permutes its argument. -/
def create_deck (shuffle : List Card → List Card) : List Card :=
  shuffle base_deck

/-- Big-endian encoding of a 32-bit value, as `struct.pack('!I', n)`. -/
def packBE32 (n : Nat) : List Byte :=
  [n / 2 ^ 24 % 256, n / 2 ^ 16 % 256, n / 2 ^ 8 % 256, n % 256]

/-- Big-endian decoding of bytes, as `struct.unpack('!I', ...)`. -/
def beBytesToNat (bs : List Byte) : Nat :=
  bs.foldl (fun a b => a * 256 + b) 0

/-- The fields the server puts in one `'!IbB2bB'` CardUpdate/Result packet:
result code, card rank, card suit (the reserved byte is always 0). -/
structure CardUpdate where
  result : Nat
  rank : Nat
  suit : Nat
deriving DecidableEq, Repr

/-- `struct.pack('!IbB2bB', MAGIC_COOKIE, PAYLOAD_TYPE, result, rank, 0, suit)`:
the 9-byte wire form of a CardUpdate packet. -/
def pack_card_update (u : CardUpdate) : List Byte :=
  packBE32 MAGIC_COOKIE ++ [PAYLOAD_TYPE, u.result % 256, u.rank % 256, 0, u.suit % 256]

/-- The client's Decision framing in `BlackjackClient.play_game`:
`struct.pack('!Ib5s', MAGIC_COOKIE, PAYLOAD_TYPE, decision.ljust(5).encode())`.
`ljust(5)` pads with spaces (byte 32) and `'5s'` truncates to 5 bytes. -/
def pack_decision (token : List Byte) : List Byte :=
  packBE32 MAGIC_COOKIE ++ [PAYLOAD_TYPE] ++
    (token ++ List.replicate (5 - token.length) 32).take 5

/-- ASCII bytes of `b"Hit"`. -/
def hitBytes : List Byte := [72, 105, 116]

/-- ASCII bytes of `"Hittt"`. -/
def hitttToken : List Byte := [72, 105, 116, 116, 116]

/-- ASCII bytes of `"Stand"`. -/
def standToken : List Byte := [83, 116, 97, 110, 100]

/-- A UTF-8 continuation byte, `0x80..0xBF`. -/
def utf8Cont (b : Byte) : Bool := 128 ≤ b && b ≤ 191

/-- Strict UTF-8 validity of a byte string, as checked by Python's
`bytes.decode()` (default `'utf-8'`, strict): RFC 3629 sequences only —
no overlong forms (leads `0xC0`/`0xC1` rejected, tight second-byte ranges
after `0xE0`/`0xF0`), no surrogates (`0xED` limited to `0x80..0x9F`), and
nothing above U+10FFFF (`0xF4` limited to `0x80..0x8F`, leads ≥ `0xF5`
rejected).  The server calls `.decode()` on the decision field and on the
client-name field before using them; an invalid field raises
`UnicodeDecodeError`, which the session's `except` handler turns into an
aborted session. -/
def validUTF8 : List Byte → Bool
  | [] => true
  | b :: bs =>
    if b ≤ 127 then validUTF8 bs
    else if 194 ≤ b && b ≤ 223 then
      match bs with
      | c1 :: bs2 => utf8Cont c1 && validUTF8 bs2
      | _ => false
    else if b = 224 then
      match bs with
      | c1 :: c2 :: bs2 =>
        (160 ≤ c1 && c1 ≤ 191) && utf8Cont c2 && validUTF8 bs2
      | _ => false
    else if 225 ≤ b && b ≤ 236 then
      match bs with
      | c1 :: c2 :: bs2 => utf8Cont c1 && utf8Cont c2 && validUTF8 bs2
      | _ => false
    else if b = 237 then
      match bs with
      | c1 :: c2 :: bs2 =>
        (128 ≤ c1 && c1 ≤ 159) && utf8Cont c2 && validUTF8 bs2
      | _ => false
    else if 238 ≤ b && b ≤ 239 then
      match bs with
      | c1 :: c2 :: bs2 => utf8Cont c1 && utf8Cont c2 && validUTF8 bs2
      | _ => false
    else if b = 240 then
      match bs with
      | c1 :: c2 :: c3 :: bs2 =>
        (144 ≤ c1 && c1 ≤ 191) && utf8Cont c2 && utf8Cont c3 && validUTF8 bs2
      | _ => false
    else if 241 ≤ b && b ≤ 243 then
      match bs with
      | c1 :: c2 :: c3 :: bs2 =>
        utf8Cont c1 && utf8Cont c2 && utf8Cont c3 && validUTF8 bs2
      | _ => false
    else if b = 244 then
      match bs with
      | c1 :: c2 :: c3 :: bs2 =>
        (128 ≤ c1 && c1 ≤ 143) && utf8Cont c2 && utf8Cont c3 && validUTF8 bs2
      | _ => false
    else false

/-- `needle` is a prefix of `hay` (helper for the substring test). -/
def startsWithBytes : List Byte → List Byte → Bool
  | [], _ => true
  | _ :: _, [] => false
  | a :: as, b :: bs => a == b && startsWithBytes as bs

/-- Python's `needle in hay` on bytes: contiguous substring occurrence. -/
def containsBytes (needle : List Byte) : List Byte → Bool
  | [] => needle.isEmpty
  | b :: bs => startsWithBytes needle (b :: bs) || containsBytes needle bs

/-- `deck.pop()`: remove and return the LAST element of the list. -/
def draw (deck : List Card) : Option (Card × List Card) :=
  match deck.getLast? with
  | none => none
  | some c => some (c, deck.dropLast)

/-- The player-turn loop of `handle_client`
(`while self.calculate_value(p_hand) < 21: ...`).
Inputs model the successive results of `recv_all(conn, 10)`: `none` is a
failed/short read (the code then breaks out of the loop), `some data` a
complete read; an exhausted input list models a peer that never answers
(the 60 s timeout then makes `recv_all` return `None`, also a break).
After unpacking, the code runs `d_raw.decode().strip()` before the
`b"Hit" in d_raw` test, so a non-UTF-8 decision field raises
`UnicodeDecodeError` and kills the session.
Returns the leftover inputs, the remaining deck, the final player hand and
the CardUpdate packets sent for drawn cards, or `none` if the session dies
on an exception (empty deck on `pop`, a `struct.unpack` size mismatch, or
a failing decode of the decision field). -/
def player_turn :
    List (Option (List Byte)) → List Card → List Card →
    Option (List (Option (List Byte)) × List Card × List Card × List CardUpdate)
  | [], deck, p_hand =>
    some ([], deck, p_hand, [])
  | none :: rest, deck, p_hand =>
    if calculate_value p_hand < 21 then some (rest, deck, p_hand, [])
    else some (none :: rest, deck, p_hand, [])
  | some data :: rest, deck, p_hand =>
    if calculate_value p_hand < 21 then
      if data.length = 10 then
       if validUTF8 (data.drop 5) then
        if containsBytes hitBytes (data.drop 5) then
          match draw deck with
          | none => none
          | some (c, deck') =>
            match player_turn rest deck' (p_hand ++ [c]) with
            | none => none
            | some (rem, dk, ph, sent) =>
              some (rem, dk, ph, ⟨0, c.1, c.2⟩ :: sent)
        else some (rest, deck, p_hand, [])
       else none
      else none
    else some (some data :: rest, deck, p_hand, [])

/-- The dealer loop of `handle_client` (`while d_sum < 17: ...`):
draw, append to the dealer hand, send the card, recompute the sum.
The loop pops the deck on every iteration, so it runs at most
`deck.length` times; `fuel` makes that bound explicit (callers pass
`deck.length + 1`, and the fuel-out arm coincides with the empty-deck
exception arm, so no behaviour is added).  Returns the remaining deck,
final dealer hand and the packets sent, or `none` on deck exhaustion. -/
def dealer_turn : Nat → List Card → List Card →
    Option (List Card × List Card × List CardUpdate)
  | 0, _, _ => none
  | fuel + 1, deck, d_hand =>
    if calculate_value d_hand < 17 then
      match draw deck with
      | none => none
      | some (c, deck') =>
        match dealer_turn fuel deck' (d_hand ++ [c]) with
        | none => none
        | some (dk, dh, sent) => some (dk, dh, ⟨0, c.1, c.2⟩ :: sent)
    else some (deck, d_hand, [])

/-- One round of `handle_client`, from `deck = self.create_deck()` to the
terminal result packet: deal (player, player, dealer, dealer, popping from
the end of the deck), send the two player cards and the dealer's first card,
run the player loop, then either settle immediately on a player bust or
reveal the dealer's second card, run the dealer loop and settle.
Returns leftover decision inputs, all packets sent this round in order, and
the final player and dealer hands; `none` models an uncaught per-session
exception (deck exhaustion / malformed read size). -/
def play_round (deck : List Card) (inputs : List (Option (List Byte))) :
    Option (List (Option (List Byte)) × List CardUpdate × List Card × List Card) :=
  match draw deck with
  | none => none
  | some (p1, deck1) =>
    match draw deck1 with
    | none => none
    | some (p2, deck2) =>
      match draw deck2 with
      | none => none
      | some (d1, deck3) =>
        match draw deck3 with
        | none => none
        | some (d2, deck4) =>
          match player_turn inputs deck4 [p1, p2] with
          | none => none
          | some (rem, deck5, p_hand, hitSent) =>
            if 21 < calculate_value p_hand then
              some (rem,
                [⟨0, p1.1, p1.2⟩, ⟨0, p2.1, p2.2⟩, ⟨0, d1.1, d1.2⟩] ++
                  hitSent ++ [⟨2, 0, 0⟩],
                p_hand, [d1, d2])
            else
              match dealer_turn (deck5.length + 1) deck5 [d1, d2] with
              | none => none
              | some (_, d_hand, dealerSent) =>
                some (rem,
                  [⟨0, p1.1, p1.2⟩, ⟨0, p2.1, p2.2⟩, ⟨0, d1.1, d1.2⟩] ++
                    hitSent ++ ⟨0, d2.1, d2.2⟩ :: dealerSent ++
                    [⟨(if 21 < calculate_value d_hand then 3
                       else if calculate_value p_hand = calculate_value d_hand then 1
                       else if calculate_value d_hand < calculate_value p_hand then 3
                       else 2), 0, 0⟩],
                  p_hand, d_hand)

/-- How one client session ends: `ok` when `handle_client` falls through to
its `finally` with no exception, `err` when an exception was caught. -/
inductive SessionEnd where
  | ok
  | err
deriving DecidableEq

/-- `for round_idx in range(rounds)`: play the given number of rounds,
round `i` using the fresh deck `decks i`, threading the decision inputs.
On an exception the transcript is collapsed to `none` (no claim below is
about the packets of an aborted session). -/
def play_rounds : Nat → (Nat → List Card) → Nat → List (Option (List Byte)) →
    Option (List CardUpdate)
  | 0, _, _, _ => some []
  | n + 1, decks, i, inputs =>
    match play_round (decks i) inputs with
    | none => none
    | some (rem, sent, _, _) =>
      match play_rounds n decks (i + 1) rem with
      | none => none
      | some rest => some (sent ++ rest)

/-- `BlackjackServer.handle_client`: read the 38-byte Request
(`request` is the result of `recv_all(conn, 38)`), validate magic cookie and
type tag (`struct.unpack('!IbB32s', ...)` puts the cookie in bytes 0..3, the
type in byte 4, the round count in byte 5 and the 32-byte client name in
bytes 6..37), log the `New Game` line — whose `c_name.decode()` raises
`UnicodeDecodeError` on a non-UTF-8 name, aborting the session before any
round — then play the rounds.
Returns the CardUpdate packets sent and how the session ended. -/
def handle_client (request : Option (List Byte)) (decks : Nat → List Card)
    (inputs : List (Option (List Byte))) : List CardUpdate × SessionEnd :=
  match request with
  | none => ([], .ok)
  | some data =>
    if data.length = 38 then
      if beBytesToNat (data.take 4) = MAGIC_COOKIE ∧ data.getD 4 0 = REQUEST_TYPE then
        if validUTF8 (data.drop 6) then
          match play_rounds (data.getD 5 0) decks 0 inputs with
          | none => ([], .err)
          | some sent => (sent, .ok)
        else ([], .err)
      else ([], .ok)
    else ([], .err)

/-- Modelled from the spec: the settlement rule of §4.3 step 5, in the
spec's own order — player > 21 → PlayerLoss (2); else dealer > 21 →
PlayerWin (3); else player > dealer → PlayerWin (3), player < dealer →
PlayerLoss (2), equal → Tie (1).  Used to compare the server's embedded
settlement computation against the spec's wording. -/
def result_code_spec (p d : Nat) : Nat :=
  if 21 < p then 2
  else if 21 < d then 3
  else if d < p then 3
  else if p < d then 2
  else 1

theorem draw_concat (rest : List Card) (c : Card) :
    draw (rest ++ [c]) = some (c, rest) := by
  simp [draw]

theorem draw_eq_some_iff {deck : List Card} {c : Card} {rest : List Card} :
    draw deck = some (c, rest) ↔ deck = rest ++ [c] := by
  rcases List.eq_nil_or_concat deck with h | ⟨L, b, h⟩ <;> subst h
  · simp [draw]
  · rw [List.concat_eq_append, draw_concat]
    constructor
    · intro h
      cases h
      rfl
    · intro h
      have := List.append_inj' h rfl
      obtain ⟨rfl, h2⟩ := this
      cases h2
      rfl

theorem player_turn_spec :
    ∀ (inputs : List (Option (List Byte))) (deck p_hand : List Card)
      (rem : List (Option (List Byte))) (dk ph : List Card) (sent : List CardUpdate),
      player_turn inputs deck p_hand = some (rem, dk, ph, sent) →
      ∃ drawn : List Card, ph = p_hand ++ drawn ∧
        sent = drawn.map (fun c => ⟨0, c.1, c.2⟩) ∧
        (∀ c ∈ drawn, c ∈ deck) ∧ dk.Sublist deck := by
  intro inputs
  induction inputs with
  | nil =>
    intro deck p_hand rem dk ph sent h
    rw [player_turn] at h
    simp only [Option.some.injEq, Prod.mk.injEq] at h
    obtain ⟨rfl, rfl, rfl, rfl⟩ := h
    exact ⟨[], by simp, rfl, by simp, List.Sublist.refl _⟩
  | cons x rest ih =>
    intro deck p_hand rem dk ph sent h
    cases x with
    | none =>
      rw [player_turn] at h
      split at h <;>
      · simp only [Option.some.injEq, Prod.mk.injEq] at h
        obtain ⟨rfl, rfl, rfl, rfl⟩ := h
        exact ⟨[], by simp, rfl, by simp, List.Sublist.refl _⟩
    | some data =>
      rw [player_turn] at h
      split at h
      case isTrue hv =>
        split at h
        case isTrue hlen =>
          split at h
          case isTrue hutf =>
            split at h
            case isTrue hhit =>
              split at h
              next hdr => simp at h
              next c deck' hdr =>
                have hdeck : deck = deck' ++ [c] := draw_eq_some_iff.mp hdr
                split at h
                next hrec => simp at h
                next rem' dk' ph' sent' hrec =>
                  simp only [Option.some.injEq, Prod.mk.injEq] at h
                  obtain ⟨rfl, rfl, rfl, rfl⟩ := h
                  obtain ⟨drawn, hph, hsent, hmem, hsub⟩ :=
                    ih deck' (p_hand ++ [c]) rem' dk' ph' sent' hrec
                  refine ⟨c :: drawn, by simp [hph], by simp [hsent], ?_, ?_⟩
                  · intro e he
                    rcases List.mem_cons.mp he with rfl | he'
                    · simp [hdeck]
                    · exact hdeck ▸ (List.mem_append_left [c] (hmem e he'))
                  · exact hsub.trans (hdeck ▸ (List.sublist_append_left deck' [c]))
            case isFalse hhit =>
              simp only [Option.some.injEq, Prod.mk.injEq] at h
              obtain ⟨rfl, rfl, rfl, rfl⟩ := h
              exact ⟨[], by simp, rfl, by simp, List.Sublist.refl _⟩
          case isFalse hutf => exact absurd h (by simp)
        case isFalse hlen => exact absurd h (by simp)
      case isFalse hv =>
        simp only [Option.some.injEq, Prod.mk.injEq] at h
        obtain ⟨rfl, rfl, rfl, rfl⟩ := h
        exact ⟨[], by simp, rfl, by simp, List.Sublist.refl _⟩

theorem dealer_turn_spec :
    ∀ (fuel : Nat) (deck d_hand : List Card)
      (dk dh : List Card) (sent : List CardUpdate),
      dealer_turn fuel deck d_hand = some (dk, dh, sent) →
      ∃ drawn : List Card, dh = d_hand ++ drawn ∧
        sent = drawn.map (fun c => ⟨0, c.1, c.2⟩) ∧
        (∀ c ∈ drawn, c ∈ deck) ∧
        17 ≤ calculate_value dh ∧
        ∀ k, d_hand.length ≤ k → k < dh.length →
          calculate_value (dh.take k) < 17 := by
  intro fuel
  induction fuel with
  | zero => intro deck d_hand dk dh sent h; exact absurd h (by rw [dealer_turn]; simp)
  | succ fuel ih =>
    intro deck d_hand dk dh sent h
    rw [dealer_turn] at h
    split at h
    case isTrue hv =>
      split at h
      next hdr => simp at h
      next c deck' hdr =>
        have hdeck : deck = deck' ++ [c] := draw_eq_some_iff.mp hdr
        split at h
        next hrec => simp at h
        next dk' dh' sent' hrec =>
          simp only [Option.some.injEq, Prod.mk.injEq] at h
          obtain ⟨rfl, rfl, rfl⟩ := h
          obtain ⟨drawn, hdh, hsent, hmem, hval, hmin⟩ :=
            ih deck' (d_hand ++ [c]) dk' dh' sent' hrec
          refine ⟨c :: drawn, by simp [hdh], by simp [hsent], ?_, hval, ?_⟩
          · intro e he
            rcases List.mem_cons.mp he with rfl | he'
            · simp [hdeck]
            · exact hdeck ▸ (List.mem_append_left [c] (hmem e he'))
          · intro k hk1 hk2
            rcases Nat.eq_or_lt_of_le hk1 with rfl | hk1'
            · have htake : dh'.take d_hand.length = d_hand := by
                rw [hdh, List.append_assoc, List.take_left]
              rw [htake]
              exact hv
            · exact hmin k (by simp; omega) hk2
    case isFalse hv =>
      simp only [Option.some.injEq, Prod.mk.injEq] at h
      obtain ⟨rfl, rfl, rfl⟩ := h
      exact ⟨[], by simp, rfl, by simp, Nat.le_of_not_lt hv, by omega⟩

theorem play_round_spec
    (deck : List Card) (inputs rem : List (Option (List Byte)))
    (sent : List CardUpdate) (ph dh : List Card)
    (h : play_round deck inputs = some (rem, sent, ph, dh)) :
    ∃ (p1 p2 d1 d2 : Card) (deck4 hits : List Card),
      deck = deck4 ++ [d2, d1, p2, p1] ∧
      ph = [p1, p2] ++ hits ∧
      (∀ c ∈ hits, c ∈ deck4) ∧
      dh.take 2 = [d1, d2] ∧
      (if 21 < calculate_value ph then
        dh = [d1, d2] ∧
        sent = [⟨0, p1.1, p1.2⟩, ⟨0, p2.1, p2.2⟩, ⟨0, d1.1, d1.2⟩] ++
          hits.map (fun c => ⟨0, c.1, c.2⟩) ++ [⟨2, 0, 0⟩]
      else
        ∃ ddrawn : List Card,
          dh = [d1, d2] ++ ddrawn ∧
          (∀ c ∈ ddrawn, c ∈ deck4) ∧
          17 ≤ calculate_value dh ∧
          (∀ k, 2 ≤ k → k < dh.length → calculate_value (dh.take k) < 17) ∧
          sent = [⟨0, p1.1, p1.2⟩, ⟨0, p2.1, p2.2⟩, ⟨0, d1.1, d1.2⟩] ++
            hits.map (fun c => ⟨0, c.1, c.2⟩) ++
            ⟨0, d2.1, d2.2⟩ :: ddrawn.map (fun c => ⟨0, c.1, c.2⟩) ++
            [⟨(if 21 < calculate_value dh then 3
               else if calculate_value ph = calculate_value dh then 1
               else if calculate_value dh < calculate_value ph then 3
               else 2), 0, 0⟩]) := by
  unfold play_round at h
  split at h
  next => simp at h
  next p1 deck1 hdr1 =>
    split at h
    next => simp at h
    next p2 deck2 hdr2 =>
      split at h
      next => simp at h
      next d1 deck3 hdr3 =>
        split at h
        next => simp at h
        next d2 deck4 hdr4 =>
          split at h
          next => simp at h
          next rem' deck5 p_hand hitSent hpt =>
            obtain ⟨hits, hph, hsent0, hmemh, hsub5⟩ :=
              player_turn_spec _ _ _ _ _ _ _ hpt
            have hdeck : deck = deck4 ++ [d2, d1, p2, p1] := by
              have e1 := draw_eq_some_iff.mp hdr1
              have e2 := draw_eq_some_iff.mp hdr2
              have e3 := draw_eq_some_iff.mp hdr3
              have e4 := draw_eq_some_iff.mp hdr4
              subst e1 e2 e3 e4
              simp
            split at h
            case isTrue hbust =>
              simp only [Option.some.injEq, Prod.mk.injEq] at h
              obtain ⟨rfl, rfl, rfl, rfl⟩ := h
              refine ⟨p1, p2, d1, d2, deck4, hits, hdeck, hph, hmemh, rfl, ?_⟩
              rw [if_pos hbust]
              exact ⟨rfl, by rw [hsent0]⟩
            case isFalse hbust =>
              split at h
              next => simp at h
              next dk5 d_hand dealerSent hdt =>
                obtain ⟨ddrawn, hdh, hsentd, hmemd, hval, hmin⟩ :=
                  dealer_turn_spec _ _ _ _ _ _ hdt
                simp only [Option.some.injEq, Prod.mk.injEq] at h
                obtain ⟨rfl, rfl, rfl, rfl⟩ := h
                refine ⟨p1, p2, d1, d2, deck4, hits, hdeck, hph, hmemh, ?_, ?_⟩
                · rw [hdh]
                  rfl
                · rw [if_neg hbust]
                  refine ⟨ddrawn, hdh, ?_, hval, ?_, ?_⟩
                  · intro c hc
                    exact hsub5.subset (hmemd c hc)
                  · intro k hk1 hk2
                    exact hmin k (by simpa using hk1) hk2
                  · rw [hsent0, hsentd]

theorem recvAllGo_none_or_exact :
    ∀ (evs : List RecvEvent) (n : Nat) (acc : List Byte), acc.length ≤ n →
      recvAllGo evs n acc = none ∨
        ∃ buf, recvAllGo evs n acc = some buf ∧ buf.length = n := by
  intro evs
  induction evs with
  | nil =>
    intro n acc h
    rw [recvAllGo]
    by_cases hle : n ≤ acc.length
    · exact Or.inr ⟨acc, by rw [if_pos hle], Nat.le_antisymm h hle⟩
    · rw [if_neg hle]
      exact Or.inl rfl
  | cons e rest ih =>
    intro n acc h
    rw [recvAllGo]
    by_cases hle : n ≤ acc.length
    · exact Or.inr ⟨acc, by rw [if_pos hle], Nat.le_antisymm h hle⟩
    · rw [if_neg hle]
      cases e with
      | chunk bs =>
        simp only [recvOnce]
        cases hbs : bs.take (n - acc.length) with
        | nil => exact Or.inl rfl
        | cons b bs' =>
          have hlen : bs'.length + 1 ≤ n - acc.length := by
            have := List.length_take_le (n - acc.length) bs
            rw [hbs] at this
            simpa using this
          exact ih n (acc ++ b :: bs') (by
            simp only [List.length_append, List.length_cons]
            omega)
      | closed => exact Or.inl rfl
      | err => exact Or.inl rfl

/-- C10: for every socket event stream and every `n ≥ 0`, `recv_all` returns
either `None` (peer closed the stream, socket error, or the data never
arrives) or a buffer of exactly `n` bytes — never a partial buffer. -/
theorem recv_all_none_or_exact (events : List RecvEvent) (n : Nat) :
    recv_all events n = none ∨
      ∃ buf, recv_all events n = some buf ∧ buf.length = n :=
  recvAllGo_none_or_exact events n [] (Nat.zero_le n)

theorem startsWithBytes_iff :
    ∀ needle hay : List Byte, startsWithBytes needle hay = true ↔ needle <+: hay := by
  intro needle
  induction needle with
  | nil => intro hay; simp [startsWithBytes]
  | cons a as ih =>
    intro hay
    cases hay with
    | nil => simp [startsWithBytes]
    | cons b bs =>
      rw [startsWithBytes, List.cons_prefix_cons]
      simp only [Bool.and_eq_true, beq_iff_eq, ih]

theorem containsBytes_iff (needle : List Byte) :
    ∀ hay : List Byte, containsBytes needle hay = true ↔ needle <:+: hay := by
  intro hay
  induction hay with
  | nil => simp [containsBytes, List.isEmpty_iff]
  | cons b bs ih =>
    rw [containsBytes, List.infix_cons_iff]
    simp [startsWithBytes_iff, ih]

/-- C9: any shuffle that permutes its input makes `create_deck` return a
duplicate-free 52-card deck holding exactly the pairs with rank 1..13 and
suit 0..3.  (In `handle_client` a fresh such deck is built at the top of
every round iteration.) -/
theorem create_deck_distinct_cards (shuffle : List Card → List Card)
    (hs : ∀ l, (shuffle l).Perm l) :
    (create_deck shuffle).Nodup ∧ (create_deck shuffle).length = 52 ∧
      ∀ c : Card, c ∈ create_deck shuffle ↔ 1 ≤ c.1 ∧ c.1 ≤ 13 ∧ c.2 ≤ 3 := by
  have hp : (create_deck shuffle).Perm base_deck := hs base_deck
  refine ⟨hp.nodup_iff.mpr (by decide), hp.length_eq.trans (by decide), fun c => ?_⟩
  rw [hp.mem_iff]
  constructor
  · intro hc
    simp only [base_deck, List.mem_flatMap, List.mem_map, List.mem_range,
      List.mem_range'_1] at hc
    obtain ⟨r, hr, s, hsle, rfl⟩ := hc
    omega
  · intro hc
    simp only [base_deck, List.mem_flatMap, List.mem_map, List.mem_range,
      List.mem_range'_1]
    exact ⟨c.1, by omega, c.2, by omega, rfl⟩

/-- Companion witness for `create_deck_distinct_cards` at the identity
shuffle. -/
theorem create_deck_distinct_cards_witness :
    (create_deck id).Nodup ∧ (create_deck id).length = 52 :=
  ⟨(create_deck_distinct_cards id fun l => List.Perm.refl l).1,
    (create_deck_distinct_cards id fun l => List.Perm.refl l).2.1⟩

theorem result_code_spec_ne_zero (p d : Nat) : result_code_spec p d ≠ 0 := by
  unfold result_code_spec
  split_ifs <;> omega

theorem result_code_spec_of_bust (p d : Nat) (hp : 21 < p) :
    result_code_spec p d = 2 := by
  unfold result_code_spec
  rw [if_pos hp]

theorem result_code_spec_of_stand (p d : Nat) (hp : ¬ 21 < p) :
    (if 21 < d then 3 else if p = d then 1 else if d < p then 3 else 2) =
      result_code_spec p d := by
  unfold result_code_spec
  split_ifs <;> omega

theorem getLast?_concat_mid (P : List CardUpdate) (y : CardUpdate)
    (Q : List CardUpdate) (x : CardUpdate) :
    (P ++ y :: Q ++ [x]).getLast? = some x := by
  rw [show P ++ y :: Q ++ [x] = (P ++ y :: Q) ++ [x] from by simp,
    List.getLast?_concat]

theorem dropLast_concat_mid (P : List CardUpdate) (y : CardUpdate)
    (Q : List CardUpdate) (x : CardUpdate) :
    (P ++ y :: Q ++ [x]).dropLast = P ++ y :: Q := by
  rw [show P ++ y :: Q ++ [x] = (P ++ y :: Q) ++ [x] from by simp,
    List.dropLast_concat]

/-- C5: whenever a round completes, its packet transcript ends with exactly
one terminal CardUpdate carrying `rank = 0`, `suit = 0` and the result code
given by the spec's settlement rule (2 on player bust; else 3 on dealer
bust; else 3/2/1 by comparison), that code is in {1,2,3}, and every earlier
packet of the round carries result 0 (Active). -/
theorem round_settlement_spec
    (deck : List Card) (inputs rem : List (Option (List Byte)))
    (sent : List CardUpdate) (ph dh : List Card)
    (h : play_round deck inputs = some (rem, sent, ph, dh)) :
    sent.getLast? =
      some ⟨result_code_spec (calculate_value ph) (calculate_value dh), 0, 0⟩ ∧
    result_code_spec (calculate_value ph) (calculate_value dh) ≠ 0 ∧
    ∀ u ∈ sent.dropLast, u.result = 0 := by
  obtain ⟨p1, p2, d1, d2, deck4, hits, hdeck, hph, hmemh, htake, hbr⟩ :=
    play_round_spec deck inputs rem sent ph dh h
  refine ⟨?_, result_code_spec_ne_zero _ _, ?_⟩
  · by_cases hbust : 21 < calculate_value ph
    · rw [if_pos hbust] at hbr
      obtain ⟨rfl, rfl⟩ := hbr
      rw [result_code_spec_of_bust _ _ hbust, List.getLast?_concat]
    · rw [if_neg hbust] at hbr
      obtain ⟨ddrawn, rfl, hmemd, hval, hmin, rfl⟩ := hbr
      rw [getLast?_concat_mid, result_code_spec_of_stand _ _ hbust]
  · by_cases hbust : 21 < calculate_value ph
    · rw [if_pos hbust] at hbr
      obtain ⟨rfl, rfl⟩ := hbr
      rw [List.dropLast_concat]
      intro u hu
      rcases List.mem_append.mp hu with hu' | hu'
      · fin_cases hu' <;> rfl
      · obtain ⟨c, _, rfl⟩ := List.mem_map.mp hu'
        rfl
    · rw [if_neg hbust] at hbr
      obtain ⟨ddrawn, rfl, hmemd, hval, hmin, rfl⟩ := hbr
      intro u hu
      rw [dropLast_concat_mid] at hu
      rcases List.mem_append.mp hu with hu' | hu'
      · rcases List.mem_append.mp hu' with hu'' | hu''
        · fin_cases hu'' <;> rfl
        · obtain ⟨c, _, rfl⟩ := List.mem_map.mp hu''
          rfl
      · rcases List.mem_cons.mp hu' with rfl | hu''
        · rfl
        · obtain ⟨c, _, rfl⟩ := List.mem_map.mp hu''
          rfl

/-- Companion witness for `round_settlement_spec` on a concrete round. -/
theorem round_settlement_spec_witness :
    ([⟨0,1,3⟩, ⟨0,13,2⟩, ⟨0,9,1⟩, ⟨0,10,0⟩, ⟨3,0,0⟩] : List CardUpdate).getLast? =
      some ⟨result_code_spec (calculate_value [(1,3), (13,2)])
        (calculate_value [(9,1), (10,0)]), 0, 0⟩ :=
  (round_settlement_spec [(10,0), (9,1), (13,2), (1,3)] [] []
    [⟨0,1,3⟩, ⟨0,13,2⟩, ⟨0,9,1⟩, ⟨0,10,0⟩, ⟨3,0,0⟩]
    [(1,3), (13,2)] [(9,1), (10,0)] (by decide)).1

theorem deal_distinct (deck deck4 : List Card) (p1 p2 d1 d2 : Card)
    (hdeck : deck = deck4 ++ [d2, d1, p2, p1]) (hnd : deck.Nodup) :
    d2 ∉ deck4 ∧ d2 ≠ d1 ∧ d2 ≠ p2 ∧ d2 ≠ p1 := by
  subst hdeck
  have htl : ([d2, d1, p2, p1] : List Card).Nodup := hnd.of_append_right
  have hhd : d2 ∉ ([d1, p2, p1] : List Card) := (List.nodup_cons.mp htl).1
  have hdisj : deck4.Disjoint [d2, d1, p2, p1] :=
    List.disjoint_of_nodup_append hnd
  simp only [List.mem_cons, List.not_mem_nil, or_false, not_or] at hhd
  exact ⟨fun hm => hdisj hm (by simp), hhd.1, hhd.2.1, hhd.2.2⟩

theorem getElem?_append_cons (P : List CardUpdate) (y : CardUpdate)
    (Q : List CardUpdate) : (P ++ y :: Q)[P.length]? = some y := by
  rw [List.getElem?_append_right (Nat.le_refl _)]
  simp

theorem drop_append_cons (P : List CardUpdate) (y : CardUpdate)
    (Q : List CardUpdate) : (P ++ y :: Q).drop (P.length + 1) = Q := by
  rw [List.drop_append_eq_append_drop]
  simp

/-- C6: in a completed round, if the player busted the dealer hand stays at
its two dealt cards, the terminal packet is `PlayerLoss` and no packet of
the round carries the dealer's hidden card; otherwise the packet right
after the player's cards reveals the dealer's second card with
`result = Active`, every dealer hand strictly below the final one valued
below 17 kept drawing, the dealer stands at a final value ≥ 17 (no softness
distinction exists in `calculate_value`), and the remaining transcript is
exactly the dealer draws followed by the terminal packet. -/
theorem dealer_phase_spec
    (deck : List Card) (inputs rem : List (Option (List Byte)))
    (sent : List CardUpdate) (ph dh : List Card)
    (hnd : deck.Nodup) (hrk : ∀ c ∈ deck, 1 ≤ c.1)
    (h : play_round deck inputs = some (rem, sent, ph, dh)) :
    (21 < calculate_value ph →
      dh.length = 2 ∧
      sent.getLast? = some ⟨2, 0, 0⟩ ∧
      ∀ c, dh[1]? = some c → ∀ u ∈ sent, (u.rank, u.suit) ≠ c) ∧
    (¬ 21 < calculate_value ph →
      17 ≤ calculate_value dh ∧
      (∀ c, dh[1]? = some c → sent[ph.length + 1]? = some ⟨0, c.1, c.2⟩) ∧
      (∀ k, 2 ≤ k → k < dh.length → calculate_value (dh.take k) < 17) ∧
      ∃ r, sent.drop (ph.length + 2) =
        (dh.drop 2).map (fun c => CardUpdate.mk 0 c.1 c.2) ++
          [CardUpdate.mk r 0 0]) := by
  obtain ⟨p1, p2, d1, d2, deck4, hits, hdeck, hph, hmemh, htake, hbr⟩ :=
    play_round_spec deck inputs rem sent ph dh h
  obtain ⟨hd4, hdd1, hdp2, hdp1⟩ := deal_distinct deck deck4 p1 p2 d1 d2 hdeck hnd
  have hd2rank : 1 ≤ d2.1 := hrk d2 (by rw [hdeck]; simp)
  constructor
  · intro hbust
    rw [if_pos hbust] at hbr
    obtain ⟨rfl, rfl⟩ := hbr
    refine ⟨rfl, by rw [List.getLast?_concat], ?_⟩
    intro c hc u hu
    have hc2 : c = d2 := by
      simp only [List.getElem?_cons_succ, List.getElem?_cons_zero,
        Option.some.injEq] at hc
      exact hc.symm
    subst hc2
    rcases List.mem_append.mp hu with hu' | hu'
    · rcases List.mem_append.mp hu' with hu'' | hu''
      · fin_cases hu'' <;> simp_all [Prod.ext_iff] <;> omega
      · obtain ⟨e, he, rfl⟩ := List.mem_map.mp hu''
        intro hcontra
        rw [Prod.mk.eta] at hcontra
        exact hd4 (hcontra ▸ hmemh e he)
    · rcases List.mem_singleton.mp hu' with rfl
      intro hcontra
      rw [← hcontra] at hd2rank
      simp at hd2rank
  · intro hbust
    rw [if_neg hbust] at hbr
    obtain ⟨ddrawn, rfl, hmemd, hval, hmin, rfl⟩ := hbr
    refine ⟨hval, ?_, hmin, ?_⟩
    · intro c hc
      have hc2 : c = d2 := by
        simp only [List.cons_append, List.getElem?_cons_succ,
          List.getElem?_cons_zero, Option.some.injEq] at hc
        exact hc.symm
      subst hc2
      have hidx : ph.length + 1 =
          ([(⟨0, p1.1, p1.2⟩ : CardUpdate), ⟨0, p2.1, p2.2⟩, ⟨0, d1.1, d1.2⟩] ++
            hits.map (fun c => (⟨0, c.1, c.2⟩ : CardUpdate))).length := by
        simp [hph]
      rw [hidx, List.getElem?_append_left (by simp), getElem?_append_cons]
    · refine ⟨(if 21 < calculate_value ([d1, d2] ++ ddrawn) then 3
        else if calculate_value ph = calculate_value ([d1, d2] ++ ddrawn) then 1
        else if calculate_value ([d1, d2] ++ ddrawn) < calculate_value ph then 3
        else 2), ?_⟩
      have hidx : ph.length + 2 =
          ([(⟨0, p1.1, p1.2⟩ : CardUpdate), ⟨0, p2.1, p2.2⟩, ⟨0, d1.1, d1.2⟩] ++
            hits.map (fun c => (⟨0, c.1, c.2⟩ : CardUpdate))).length + 1 := by
        simp [hph]
      rw [hidx, List.drop_append_eq_append_drop, drop_append_cons]
      simp

/-- Companion witness for `dealer_phase_spec`: a concrete busting round in
which the dealer keeps its two cards and the terminal packet is 0x2. -/
theorem dealer_phase_spec_witness :
    ([(2, 3), (8, 2)] : List Card).length = 2 ∧
    ([⟨0,7,1⟩, ⟨0,6,0⟩, ⟨0,2,3⟩, ⟨0,9,1⟩, ⟨2,0,0⟩] : List CardUpdate).getLast? =
      some ⟨2, 0, 0⟩ := by
  have := (dealer_phase_spec [(5,0), (9,1), (8,2), (2,3), (6,0), (7,1)]
    [some (pack_decision hitttToken)] []
    [⟨0,7,1⟩, ⟨0,6,0⟩, ⟨0,2,3⟩, ⟨0,9,1⟩, ⟨2,0,0⟩]
    [(7,1), (6,0), (9,1)] [(2,3), (8,2)]
    (by decide) (by decide) (by decide)).1 (by decide)
  exact ⟨this.1, this.2.1⟩

/-- C7: at entry to every completed round the four cards are drawn from the
end of the fresh deck in the order player, player, dealer, dealer (so a deck
of shape `rest ++ [d2, d1, p2, p1]` deals `[p1, p2]` to the player and
`[d1, d2]` to the dealer); the first three packets sent are the two player
cards then the dealer's first card, each with result 0; and (for a
duplicate-free deck) none of those three packets carries the dealer's
second card. -/
theorem initial_deal_spec
    (deck rest : List Card) (p1 p2 d1 d2 : Card)
    (inputs rem : List (Option (List Byte)))
    (sent : List CardUpdate) (ph dh : List Card)
    (hdeck : deck = rest ++ [d2, d1, p2, p1])
    (h : play_round deck inputs = some (rem, sent, ph, dh)) :
    sent.take 3 = [⟨0, p1.1, p1.2⟩, ⟨0, p2.1, p2.2⟩, ⟨0, d1.1, d1.2⟩] ∧
    ph.take 2 = [p1, p2] ∧
    dh.take 2 = [d1, d2] ∧
    (deck.Nodup → ∀ u ∈ sent.take 3, (u.rank, u.suit) ≠ d2) := by
  obtain ⟨p1', p2', d1', d2', deck4, hits, hdeck', hph, hmemh, htake, hbr⟩ :=
    play_round_spec deck inputs rem sent ph dh h
  obtain ⟨hrest, hfour⟩ :=
    List.append_inj' (hdeck.symm.trans hdeck') rfl
  have hd2 : d2 = d2' := by injection hfour
  have hfour2 := hfour
  simp only [List.cons.injEq] at hfour2
  obtain ⟨rfl, rfl, rfl, rfl, -⟩ := hfour2
  have hph2 : ph.take 2 = [p1, p2] := by
    rw [hph]
    rfl
  have hsent3 : sent.take 3 =
      [⟨0, p1.1, p1.2⟩, ⟨0, p2.1, p2.2⟩, ⟨0, d1.1, d1.2⟩] := by
    by_cases hbust : 21 < calculate_value ph
    · rw [if_pos hbust] at hbr
      obtain ⟨rfl, rfl⟩ := hbr
      simp
    · rw [if_neg hbust] at hbr
      obtain ⟨ddrawn, rfl, hmemd, hval, hmin, rfl⟩ := hbr
      simp
  refine ⟨hsent3, hph2, htake, ?_⟩
  intro hnd u hu
  obtain ⟨hd4, hdd1, hdp2, hdp1⟩ :=
    deal_distinct deck deck4 p1 p2 d1 d2 hdeck' hnd
  rw [hsent3] at hu
  fin_cases hu <;> simp [Prod.ext_iff] <;> intro h1 h2 <;> simp_all [Prod.ext_iff]

/-- Companion witness for `initial_deal_spec` on a concrete round with a
stand decision. -/
theorem initial_deal_spec_witness :
    ([⟨0,8,0⟩, ⟨0,10,3⟩, ⟨0,9,2⟩, ⟨0,5,1⟩, ⟨0,12,0⟩, ⟨3,0,0⟩] :
        List CardUpdate).take 3 = [⟨0,8,0⟩, ⟨0,10,3⟩, ⟨0,9,2⟩] ∧
    ([(8,0), (10,3)] : List Card).take 2 = [(8,0), (10,3)] ∧
    ([(9,2), (5,1), (12,0)] : List Card).take 2 = [(9,2), (5,1)] := by
  have hres := initial_deal_spec [(12,0), (5,1), (9,2), (10,3), (8,0)]
    [(12,0)] (8,0) (10,3) (9,2) (5,1)
    [some (pack_decision standToken)] []
    [⟨0,8,0⟩, ⟨0,10,3⟩, ⟨0,9,2⟩, ⟨0,5,1⟩, ⟨0,12,0⟩, ⟨3,0,0⟩]
    [(8,0), (10,3)] [(9,2), (5,1), (12,0)] (by decide) (by decide)
  exact ⟨hres.1, hres.2.1, hres.2.2.1⟩

/-- C2 (amended): the server never compares the decision token against the
two literals and has no UnknownDecision error.  The 5-byte field is first
passed through `d_raw.decode()`: a field that is not valid UTF-8 aborts the
session (UnicodeDecodeError), and a decodable field that does not contain
the substring "Hit" is silently treated as a stand — the player turn ends
with no card drawn, no packet sent and no error raised. -/
theorem decision_token_handling :
    (∀ (data : List Byte) (rest : List (Option (List Byte)))
        (deck hand : List Card),
        data.length = 10 → calculate_value hand < 21 →
        validUTF8 (data.drop 5) = true → ¬ hitBytes <:+: data.drop 5 →
        player_turn (some data :: rest) deck hand =
          some (rest, deck, hand, [])) ∧
    (∀ (data : List Byte) (rest : List (Option (List Byte)))
        (deck hand : List Card),
        data.length = 10 → calculate_value hand < 21 →
        validUTF8 (data.drop 5) = false →
        player_turn (some data :: rest) deck hand = none) := by
  constructor
  · intro data rest deck hand h10 hlt hutf hno
    have hcb : containsBytes hitBytes (data.drop 5) = false := by
      rw [← Bool.not_eq_true, containsBytes_iff]
      exact hno
    rw [player_turn, if_pos hlt, if_pos h10]
    simp [hutf, hcb]
  · intro data rest deck hand h10 hlt hutf
    rw [player_turn, if_pos hlt, if_pos h10]
    simp [hutf]

/-- Companion witness for `decision_token_handling`: a concrete stand packet
ends the turn cleanly, and a decision whose field is five `0xFF` bytes
(undecodable) kills the session. -/
theorem decision_token_handling_witness :
    player_turn [some (pack_decision standToken)] [(2,0)] [(2,1)] =
      some ([], [(2,0)], [(2,1)], []) ∧
    player_turn [some ([171, 205, 220, 186, 4] ++ List.replicate 5 255)]
      [(2,0)] [(2,1)] = none :=
  ⟨decision_token_handling.1 (pack_decision standToken) []
      [(2,0)] [(2,1)] (by decide) (by decide) (by decide) (by decide),
    decision_token_handling.2 ([171, 205, 220, 186, 4] ++ List.replicate 5 255)
      [] [(2,0)] [(2,1)] (by decide) (by decide) (by decide)⟩

/-- C2 (counterexample): the 5-byte token "Hitxx" is neither "Hittt" nor
"Stand", yet the server processes it as a hit (a card is drawn and sent)
instead of failing with an UnknownDecision error. -/
theorem decision_unknown_token_processed_as_hit :
    ([72, 105, 116, 120, 120] : List Byte) ≠ hitttToken ∧
    ([72, 105, 116, 120, 120] : List Byte) ≠ standToken ∧
    play_round [(5,0), (9,1), (8,2), (2,3), (6,0), (7,1)]
        [some (pack_decision [72, 105, 116, 120, 120])] =
      some ([], [⟨0,7,1⟩, ⟨0,6,0⟩, ⟨0,2,3⟩, ⟨0,9,1⟩, ⟨2,0,0⟩],
        [(7,1), (6,0), (9,1)], [(2,3), (8,2)]) := by decide

/-- C3 (amended): short reads are surfaced as `recv_all` returning `None`
(never a partial buffer, so no out-of-bounds unpack downstream); a 38-byte
Request whose magic cookie does not match makes the server return cleanly
with no packets (no dedicated MalformedPacket error); for Decision packets
the magic cookie and type tag are never inspected at all — the handling of
a 10-byte decision depends only on its last 5 bytes; and a failed decision
read (`recv_all` giving `None`) merely ends the player's turn like a stand
rather than aborting the session. -/
theorem malformed_handling_actual :
    (∀ (events : List RecvEvent) (n : Nat),
        recv_all events n = none ∨
          ∃ buf, recv_all events n = some buf ∧ buf.length = n) ∧
    (∀ (data : List Byte) (decks : Nat → List Card)
        (inputs : List (Option (List Byte))),
        data.length = 38 → beBytesToNat (data.take 4) ≠ MAGIC_COOKIE →
        handle_client (some data) decks inputs = ([], SessionEnd.ok)) ∧
    (∀ (a b : List Byte) (rest : List (Option (List Byte)))
        (deck hand : List Card),
        a.length = 10 → b.length = 10 → a.drop 5 = b.drop 5 →
        calculate_value hand < 21 →
        player_turn (some a :: rest) deck hand =
          player_turn (some b :: rest) deck hand) ∧
    (∀ (rest : List (Option (List Byte))) (deck hand : List Card),
        calculate_value hand < 21 →
        player_turn (none :: rest) deck hand = some (rest, deck, hand, [])) := by
  refine ⟨?_, ?_, ?_, ?_⟩
  · intro events n
    exact recvAllGo_none_or_exact events n [] (Nat.zero_le n)
  · intro data decks inputs hlen hmag
    have hne : ¬ (beBytesToNat (data.take 4) = MAGIC_COOKIE ∧
        data.getD 4 0 = REQUEST_TYPE) := fun hc => hmag hc.1
    unfold handle_client
    dsimp only
    rw [if_pos hlen, if_neg hne]
  · intro a b rest deck hand ha hb hf hv
    rw [player_turn, player_turn, if_pos hv, if_pos hv, if_pos ha, if_pos hb, hf]
  · intro rest deck hand hv
    rw [player_turn, if_pos hv]

/-- Companion witness for `malformed_handling_actual`: a zero-filled request
is dropped cleanly, a zero-magic decision is handled exactly like the same
decision with the correct magic cookie, and a failed decision read ends the
turn without killing the round. -/
theorem malformed_handling_actual_witness :
    handle_client (some (List.replicate 38 0)) (fun _ => []) [] =
      ([], SessionEnd.ok) ∧
    player_turn [some ([0, 0, 0, 0, 0] ++ standToken)] [(3,0)] [(4,1)] =
      player_turn [some (packBE32 MAGIC_COOKIE ++ [4] ++ standToken)]
        [(3,0)] [(4,1)] ∧
    player_turn [none] [(3,0)] [(4,1)] = some ([], [(3,0)], [(4,1)], []) :=
  ⟨malformed_handling_actual.2.1 (List.replicate 38 0) (fun _ => []) []
      (by decide) (by decide),
    malformed_handling_actual.2.2.1 ([0, 0, 0, 0, 0] ++ standToken)
      (packBE32 MAGIC_COOKIE ++ [4] ++ standToken) [] [(3,0)] [(4,1)]
      (by decide) (by decide) (by decide) (by decide),
    malformed_handling_actual.2.2.2 [] [(3,0)] [(4,1)] (by decide)⟩

/-- C3 (counterexample): a 10-byte decision packet whose first four bytes
are zero (not the magic cookie) is not rejected: the round processes it as
a normal hit and completes with a terminal packet. -/
theorem decision_bad_magic_processed :
    beBytesToNat (([0, 0, 0, 0, 0] ++ hitttToken).take 4) ≠ MAGIC_COOKIE ∧
    play_round [(4,0), (9,1), (8,2), (3,3), (6,0), (7,1)]
        [some ([0, 0, 0, 0, 0] ++ hitttToken)] =
      some ([], [⟨0,7,1⟩, ⟨0,6,0⟩, ⟨0,3,3⟩, ⟨0,9,1⟩, ⟨2,0,0⟩],
        [(7,1), (6,0), (9,1)], [(3,3), (8,2)]) := by decide

/-- C4 (amended): the Decision packet on the wire is the 10-byte layout —
4-byte magic cookie, 1-byte type tag, then the 5-byte ASCII field, with no
reserved byte — and the client's framing and the server's 10-byte read are
in lockstep: the server's unpack recovers exactly the client's token. -/
theorem decision_framing_lockstep (token : List Byte) (h : token.length = 5) :
    (pack_decision token).length = 10 ∧
    (pack_decision token).drop 5 = token ∧
    beBytesToNat ((pack_decision token).take 4) = MAGIC_COOKIE ∧
    (pack_decision token).getD 4 0 = PAYLOAD_TYPE := by
  have htk : (token ++ List.replicate (5 - token.length) 32).take 5 = token := by
    rw [h]
    simp
    omega
  have hexp : pack_decision token = [171, 205, 220, 186, 4] ++ token := by
    unfold pack_decision
    rw [htk]
    rfl
  refine ⟨?_, ?_, ?_, ?_⟩
  · rw [hexp]
    simp [h]
  · rw [hexp]
    rfl
  · rw [hexp]
    exact (by decide : beBytesToNat [171, 205, 220, 186] = MAGIC_COOKIE)
  · rw [hexp]
    rfl

/-- Companion witness for `decision_framing_lockstep` at the "Stand"
token. -/
theorem decision_framing_lockstep_witness :
    (pack_decision standToken).length = 10 ∧
    (pack_decision standToken).drop 5 = standToken ∧
    beBytesToNat ((pack_decision standToken).take 4) = MAGIC_COOKIE ∧
    (pack_decision standToken).getD 4 0 = PAYLOAD_TYPE :=
  decision_framing_lockstep standToken (by decide)

/-- C4 (counterexample): the client's encoded Decision packet is 10 bytes,
not the claimed 11, and feeding an 11-byte buffer to the server's decision
unpack is a session-fatal size mismatch. -/
theorem decision_packet_not_eleven_bytes :
    (pack_decision hitttToken).length = 10 ∧
    (pack_decision hitttToken).length ≠ 11 ∧
    player_turn [some (pack_decision hitttToken ++ [0])] [(2,0)] [(5,1)] =
      none := by decide

/-- C8 (amended): a 38-byte Request with the right cookie and type, round
count 0 and a UTF-8-decodable 32-byte name plays zero rounds: the session
sends no CardUpdate packets and ends normally with no error.  (Without the
decodable-name condition the session aborts in the `New Game` log line's
`c_name.decode()` even when the round count is 0.) -/
theorem zero_rounds_clean_session
    (data : List Byte) (decks : Nat → List Card)
    (inputs : List (Option (List Byte)))
    (h1 : data.length = 38) (h2 : beBytesToNat (data.take 4) = MAGIC_COOKIE)
    (h3 : data.getD 4 0 = REQUEST_TYPE) (h4 : data.getD 5 0 = 0)
    (h5 : validUTF8 (data.drop 6) = true) :
    handle_client (some data) decks inputs = ([], SessionEnd.ok) := by
  unfold handle_client
  dsimp only
  rw [if_pos h1, if_pos ⟨h2, h3⟩, if_pos h5, h4]
  rfl

/-- Companion witness for `zero_rounds_clean_session` on a concrete
request packet. -/
theorem zero_rounds_clean_session_witness :
    handle_client (some (packBE32 MAGIC_COOKIE ++ [3, 0] ++ List.replicate 32 0))
      (fun _ => []) [] = ([], SessionEnd.ok) :=
  zero_rounds_clean_session _ _ _ (by decide) (by decide) (by decide)
    (by decide) (by decide)

/-- C8 (counterexample): a wire-valid Request (38 bytes, correct magic
cookie and type tag, round count 0) whose 32-byte name field is thirty-two
`0xFF` bytes makes the session end through the exception handler
(`c_name.decode()` raises UnicodeDecodeError in the `New Game` log line),
not through the claimed normal, error-free session end. -/
theorem zero_rounds_bad_name_aborts :
    (packBE32 MAGIC_COOKIE ++ [3, 0] ++ List.replicate 32 255).length = 38 ∧
    beBytesToNat ((packBE32 MAGIC_COOKIE ++ [3, 0] ++
      List.replicate 32 255).take 4) = MAGIC_COOKIE ∧
    (packBE32 MAGIC_COOKIE ++ [3, 0] ++ List.replicate 32 255).getD 4 0 =
      REQUEST_TYPE ∧
    (packBE32 MAGIC_COOKIE ++ [3, 0] ++ List.replicate 32 255).getD 5 0 = 0 ∧
    handle_client (some (packBE32 MAGIC_COOKIE ++ [3, 0] ++
      List.replicate 32 255)) (fun _ => []) [] = ([], SessionEnd.err) := by
  decide

/-- C1: evaluating the server's `calculate_value` at the hand
`[(13,0),(5,1),(1,2)]` of the claim (and of the repository's own tests)
yields 26, not the 16 the claim and the tests require: the code performs
no Ace demotion. -/
theorem calculate_value_no_demotion_at_test_hand :
    calculate_value [(13, 0), (5, 1), (1, 2)] = 26 := by decide

end Blackjack
